import Mathlib

/-!
Verification of the portfolio analytics engine of `app.py` against its
natural-language specification.

The source is a pandas/streamlit dashboard.  The shallow embedding below
represents a date-indexed price (or return) table as a list of dates plus a
list of named columns of rational values; pandas Series arithmetic is
modelled on lists, and the Python value produced by `sum(...)` over Series
(which is the plain int `0` when the generator is empty) is modelled by the
sum type `PyVal`.  Floating point is modelled by `ℚ`; the NaN produced by
`Series.std()` on fewer than two observations, and the AttributeError
raised by calling `.prod()`/`.std()` on a plain int, are both modelled by
`Option` with `none` for the non-numeric outcome.
-/

namespace Offshore

/-- A pandas DataFrame as the engine sees it: a date index (dates as
integers) and named numeric columns.  Column `i` of `cols` holds the values
of that column aligned with `dates`. -/
structure PriceTable where
  dates : List ℤ
  cols : List (String × List ℚ)
deriving DecidableEq

/-- Well-formedness: every column has exactly one value per date. -/
def PriceTable.wf (t : PriceTable) : Prop :=
  ∀ c ∈ t.cols, c.2.length = t.dates.length

instance (t : PriceTable) : Decidable t.wf := by
  unfold PriceTable.wf; infer_instance

/-- Column access `df[name]` together with the membership test
`name in df.columns`: `some` values when the column exists, `none`
otherwise (the source always guards access with the membership test). -/
def lookupCol (t : PriceTable) (name : String) : Option (List ℚ) :=
  (t.cols.find? (fun c => c.1 == name)).map (fun c => c.2)

/-- One column of line 135, `returns = df_filtered.pct_change().dropna()`:
under the PriceSeries invariant (a fully populated grid of positive
prices) the only NaN row produced by `pct_change` is the first one, so
`dropna` removes exactly it and entry `i` of the result is
`price[i+1]/price[i] - 1`. -/
def pctChange (l : List ℚ) : List ℚ :=
  (l.zip l.tail).map (fun p => p.2 / p.1 - 1)

/-- Line 135 on the whole table: per-column `pct_change` with the first
date dropped by `dropna`. -/
def returnsTable (t : PriceTable) : PriceTable :=
  { dates := t.dates.tail
    cols := t.cols.map (fun c => (c.1, pctChange c.2)) }

lemma pctChange_length (l : List ℚ) : (pctChange l).length = l.length - 1 := by
  simp only [pctChange, List.length_map, List.length_zip, List.length_tail]
  omega

lemma pctChange_cons_cons (a b : ℚ) (l : List ℚ) :
    pctChange (a :: b :: l) = (b / a - 1) :: pctChange (b :: l) := rfl

lemma pctChange_getD (l : List ℚ) : ∀ i : ℕ, i + 1 < l.length →
    (pctChange l).getD i 0 = l.getD (i + 1) 0 / l.getD i 0 - 1 := by
  induction l with
  | nil => intro i h; simp at h
  | cons a l ih =>
    intro i h
    cases l with
    | nil => simp at h
    | cons b l2 =>
      cases i with
      | zero => rfl
      | succ i =>
        rw [pctChange_cons_cons]
        simp only [List.getD_cons_succ]
        exact ih i (by simpa using h)

lemma find?_map_snd (l : List (String × List ℚ)) (g : List ℚ → List ℚ)
    (name : String) :
    (l.map (fun c => (c.1, g c.2))).find? (fun c => c.1 == name)
      = (l.find? (fun c => c.1 == name)).map (fun c => (c.1, g c.2)) := by
  induction l with
  | nil => rfl
  | cons c cs ih =>
    rw [List.map_cons]
    cases hb : (c.1 == name) with
    | true => simp [hb]
    | false => simp [hb, ih]

lemma lookupCol_returnsTable (t : PriceTable) (name : String) :
    lookupCol (returnsTable t) name = (lookupCol t name).map pctChange := by
  unfold lookupCol returnsTable
  simp only [find?_map_snd, Option.map_map]
  rfl

lemma lookupCol_mem {t : PriceTable} {name : String} {col : List ℚ}
    (h : lookupCol t name = some col) : (∃ c ∈ t.cols, c.2 = col) := by
  unfold lookupCol at h
  rcases Option.map_eq_some'.mp h with ⟨c, hc, hcol⟩
  exact ⟨c, List.mem_of_find?_eq_some hc, hcol⟩

/-- A value of the Python expression
`sum(returns[asset] * weights[asset] for asset in ...)`: the plain scalar
`0` when the generator is empty, otherwise a pandas Series (its list of
values; all Series in one sum share the date index of `returns`). -/
inductive PyVal where
  | scalar : ℚ → PyVal
  | series : List ℚ → PyVal
deriving DecidableEq

/-- Python `+` as it occurs in the sum of line 142: int/Series addition
broadcasts the scalar; Series/Series addition is pointwise on the common
index (the lists share their length in every reachable state). -/
def PyVal.add : PyVal → PyVal → PyVal
  | PyVal.scalar a, PyVal.scalar b => PyVal.scalar (a + b)
  | PyVal.scalar a, PyVal.series l => PyVal.series (l.map (fun x => a + x))
  | PyVal.series l, PyVal.scalar b => PyVal.series (l.map (fun x => x + b))
  | PyVal.series l, PyVal.series m => PyVal.series (List.zipWith (fun x y => x + y) l m)

/-- Scaling of a Python value by a rational constant (scalar times Series
broadcasts over the values). -/
def pvScale (c : ℚ) : PyVal → PyVal
  | PyVal.scalar a => PyVal.scalar (c * a)
  | PyVal.series l => PyVal.series (l.map (fun x => c * x))

/-- Line 138, `weights = edited_df.set_index("Classe")[perfil_ativo] / 100`:
the selected profile column with every percentage divided by 100 (and never
by the sum of the weights). -/
def weightsOf (profile : List (String × ℚ)) : List (String × ℚ) :=
  profile.map (fun p => (p.1, p.2 / 100))

/-- The `(weight, column)` pairs selected by the generator in line 142: the
assets of the weight index, in order, that also occur among the return
columns.  Assets absent from the returns are skipped by the filter. -/
def matchedCols (ret : PriceTable) (ws : List (String × ℚ)) :
    List (ℚ × List ℚ) :=
  ws.filterMap (fun aw => (lookupCol ret aw.1).map (fun col => (aw.2, col)))

/-- Line 142,
`user_portfolio_return = sum(returns[asset] * weights[asset] for asset in weights.index if asset in returns.columns)`:
Python's `sum` folds `+` over the generator starting from the int `0`. -/
def userPortfolioReturn (ret : PriceTable) (ws : List (String × ℚ)) : PyVal :=
  ((matchedCols ret ws).map
      (fun wc => PyVal.series (wc.2.map (fun r => r * wc.1)))).foldl
    PyVal.add (PyVal.scalar 0)

/-- The mathematical reading of line 142 at one date: the sum, over exactly
the assets present both in the weight index and in the return columns, of
`return[asset] * weight[asset]`. -/
def pointwiseMatchedSum (m : List (ℚ × List ℚ)) (i : ℕ) : ℚ :=
  (m.map (fun wc => wc.2.getD i 0 * wc.1)).sum

lemma getD_zipWith_add (a b : List ℚ) (h : a.length = b.length) (i : ℕ) :
    (List.zipWith (fun x y => x + y) a b).getD i 0 = a.getD i 0 + b.getD i 0 := by
  induction a generalizing b i with
  | nil =>
    cases b with
    | nil => simp
    | cons y b => simp at h
  | cons x a iha =>
    cases b with
    | nil => simp at h
    | cons y b =>
      cases i with
      | zero => simp
      | succ i => simpa using iha b (by simpa using h) i

lemma getD_map_mul (l : List ℚ) (w : ℚ) (i : ℕ) :
    (l.map (fun r => r * w)).getD i 0 = l.getD i 0 * w := by
  induction l generalizing i with
  | nil => simp
  | cons x l ih =>
    cases i with
    | zero => simp
    | succ i => simpa using ih i

lemma foldl_add_series (ls : List (List ℚ)) (acc : List ℚ)
    (h : ∀ l ∈ ls, l.length = acc.length) :
    ∃ σ : List ℚ,
      (ls.map PyVal.series).foldl PyVal.add (PyVal.series acc) = PyVal.series σ ∧
      σ.length = acc.length ∧
      ∀ i : ℕ, σ.getD i 0 = acc.getD i 0 + (ls.map (fun l => l.getD i 0)).sum := by
  induction ls generalizing acc with
  | nil => exact ⟨acc, rfl, rfl, fun i => by simp⟩
  | cons l ls ih =>
    have hl : l.length = acc.length := h l (by simp)
    have hzlen : (List.zipWith (fun x y => x + y) acc l).length = acc.length := by
      simp [List.length_zipWith, hl]
    obtain ⟨σ, h1, h2, h3⟩ := ih (List.zipWith (fun x y => x + y) acc l)
      (fun x hx => by rw [hzlen]; exact h x (List.mem_cons_of_mem _ hx))
    refine ⟨σ, ?_, by rw [h2, hzlen], ?_⟩
    · simpa [PyVal.add] using h1
    · intro i
      rw [h3 i, getD_zipWith_add acc l hl.symm i, List.map_cons, List.sum_cons]
      ring

/-- Whenever at least one asset of the profile matches a return column, the
sum of line 142 is a Series over the return dates whose value at each date
is the weighted sum over exactly the matched assets. -/
lemma userPortfolioReturn_series (ret : PriceTable) (ws : List (String × ℚ))
    (n : ℕ) (hn : ∀ wc ∈ matchedCols ret ws, wc.2.length = n)
    (hne : matchedCols ret ws ≠ []) :
    ∃ σ : List ℚ, userPortfolioReturn ret ws = PyVal.series σ ∧ σ.length = n ∧
      ∀ i : ℕ, σ.getD i 0 = pointwiseMatchedSum (matchedCols ret ws) i := by
  unfold userPortfolioReturn
  rcases hm : matchedCols ret ws with _ | ⟨wc, m⟩
  · exact absurd hm hne
  · have hwc : wc.2.length = n := hn wc (by rw [hm]; simp)
    have hrest : ∀ l ∈ m.map (fun wc => wc.2.map (fun r => r * wc.1)),
        l.length = (wc.2.map (fun r => r * wc.1)).length := by
      intro l hl
      rcases List.mem_map.mp hl with ⟨wc2, hwc2, rfl⟩
      have : wc2.2.length = n := hn wc2 (by rw [hm]; exact List.mem_cons_of_mem _ hwc2)
      simp [this, hwc]
    obtain ⟨σ, h1, h2, h3⟩ :=
      foldl_add_series (m.map (fun wc => wc.2.map (fun r => r * wc.1)))
        (wc.2.map (fun r => r * wc.1)) hrest
    refine ⟨σ, ?_, by simpa [hwc] using h2, ?_⟩
    · rw [List.map_cons, List.foldl_cons]
      have hstep : PyVal.add (PyVal.scalar 0)
          (PyVal.series (wc.2.map (fun r => r * wc.1)))
          = PyVal.series (wc.2.map (fun r => r * wc.1)) := by
        simp [PyVal.add]
      rw [hstep]
      rw [List.map_map] at h1
      simpa [Function.comp] using h1
    · intro i
      rw [h3 i, pointwiseMatchedSum, List.map_cons, List.sum_cons,
        getD_map_mul, List.map_map]
      have hmc : List.map
            ((fun l => l.getD i 0) ∘ fun wc => List.map (fun r => r * wc.1) wc.2) m
          = List.map (fun wc => wc.2.getD i 0 * wc.1) m :=
        List.map_congr_left (fun wc2 _ => getD_map_mul wc2.2 wc2.1 i)
      rw [hmc]

/-- The effect of `.prod()` in line 147: defined on a Series as the product
of its values; on the plain int produced by an empty `sum(...)` the
attribute does not exist and Python raises AttributeError, modelled as
`none`. -/
def pyProd : PyVal → Option ℚ
  | PyVal.scalar _ => none
  | PyVal.series l => some l.prod

/-- The expression `1 + user_portfolio_return` of line 147: int or
broadcast Series addition. -/
def onePlus : PyVal → PyVal
  | PyVal.scalar a => PyVal.scalar (1 + a)
  | PyVal.series l => PyVal.series (l.map (fun r => 1 + r))

/-- Line 147, `total_ret = (1 + user_portfolio_return).prod() - 1`: `none`
when the `.prod()` attribute access fails on a plain int. -/
def total_ret (pv : PyVal) : Option ℚ :=
  (pyProd (onePlus pv)).map (fun x => x - 1)

/-- Sample variance with `ddof = 1` (the pandas default for `Series.std`),
as a total rational function; it is the square of the standard deviation
and is meaningful for lists of length at least 2. -/
def sampleVar (l : List ℚ) : ℚ :=
  ((l.map (fun x => (x - l.sum / (l.length : ℚ)) ^ 2)).sum) / ((l.length : ℚ) - 1)

/-- The `.std()` call of line 150, kept at the level of the variance (its
square): pandas returns NaN on fewer than two observations (`ddof = 1`),
and the plain int produced by an empty sum has no `.std()` attribute;
both non-numeric outcomes are modelled as `none`. -/
def pyVar : PyVal → Option ℚ
  | PyVal.scalar _ => none
  | PyVal.series l => if l.length ≤ 1 then none else some (sampleVar l)

/-- The square of line 150, `vol = user_portfolio_return.std() * np.sqrt(12)`:
squaring keeps the computation in ℚ; the displayed volatility is the
square root of this value and is NaN exactly when this is `none`. -/
def vol_squared (pv : PyVal) : Option ℚ :=
  (pyVar pv).map (fun v => v * 12)

/-- Sample covariance with `ddof = 1`, the estimator named by the spec's
Covariance Engine; this definition is only used on the spec side of the
refinement claim C5 (the code never forms a covariance matrix). -/
def sampleCov (l m : List ℚ) : ℚ :=
  (((l.zip m).map
      (fun p => (p.1 - l.sum / (l.length : ℚ)) * (p.2 - m.sum / (m.length : ℚ)))).sum)
    / ((l.length : ℚ) - 1)

/-- Modelled from the spec: the annualized portfolio variance
`w^T (Cov * 12) w` of section 4.4, with the covariance matrix restricted
symmetrically to the assets present both in the profile and in the return
columns.  Its square root is the spec's annualized volatility. -/
def specPortfolioVarianceAnn (ret : PriceTable) (ws : List (String × ℚ)) : ℚ :=
  ((matchedCols ret ws).map (fun a =>
    ((matchedCols ret ws).map
        (fun b => a.1 * b.1 * (12 * sampleCov a.2 b.2))).sum)).sum

/-- Lines 153-157: the Global Aggregate KPI is computed iff the literal
column name `Bloomberg Global Aggregate` occurs among the return columns,
as `(1 + returns[c]).prod() - 1`; otherwise the card shows `N/D`. -/
def globalAggKPI (ret : PriceTable) : Option ℚ :=
  (lookupCol ret "Bloomberg Global Aggregate").map
    (fun l => (l.map (fun r => 1 + r)).prod - 1)

/-- Lines 158-163: the inflation KPI is computed iff the literal column
name `CPI` occurs among the return columns. -/
def cpiKPI (ret : PriceTable) : Option ℚ :=
  (lookupCol ret "CPI").map (fun l => (l.map (fun r => 1 + r)).prod - 1)

/-- The `df.loc[mask]` row selection of line 106 on one column: rows are
kept where the boolean mask computed from the date index is true. -/
def applyMask (dates : List ℤ) (p : ℤ → Bool) (col : List ℚ) : List ℚ :=
  ((dates.zip col).filter (fun dc => p dc.1)).map (fun dc => dc.2)

/-- Lines 104-106: the inclusive date-window filter,
`mask = (df_raw.index >= start) & (df_raw.index <= end)` followed by
`df_filtered = df_raw.loc[mask]`. -/
def filterTable (t : PriceTable) (s e : ℤ) : PriceTable :=
  { dates := t.dates.filter (fun d => decide (s ≤ d) && decide (d ≤ e))
    cols := t.cols.map (fun c =>
      (c.1, applyMask t.dates (fun d => decide (s ≤ d) && decide (d ≤ e)) c.2)) }

/-- Lines 186-190: the stacked-area composition table.  The loop over
`weights.items()` inserts one column per asset whose (already fractional)
weight is strictly positive and whose column exists in the filtered price
table, with value `w * (price[t] / price[t0]) * 100` where `t0` is the
first date of the window (`.iloc[0]`). -/
def comp_df (t : PriceTable) (ws : List (String × ℚ)) :
    List (String × List ℚ) :=
  ws.filterMap (fun aw =>
    if 0 < aw.2 then
      (lookupCol t aw.1).map
        (fun col => (aw.1, col.map (fun p => aw.2 * (p / col.headD 0) * 100)))
    else none)

section SumHelpers

lemma sum_map_getD {α : Type} (l : List α) (f : α → ℚ) (d : α) :
    (l.map f).sum = ∑ i in Finset.range l.length, f (l.getD i d) := by
  induction l with
  | nil => simp
  | cons x l ih =>
    rw [List.map_cons, List.sum_cons, ih, List.length_cons, Finset.sum_range_succ']
    simp [add_comm]

lemma prod_map_getD (l : List ℚ) (f : ℚ → ℚ) :
    (l.map f).prod = ∏ i in Finset.range l.length, f (l.getD i 0) := by
  induction l with
  | nil => simp
  | cons x l ih =>
    rw [List.map_cons, List.prod_cons, ih, List.length_cons, Finset.prod_range_succ']
    simp [mul_comm]

lemma list_sum_eq_range (l : List ℚ) :
    l.sum = ∑ i in Finset.range l.length, l.getD i 0 := by
  have h := sum_map_getD l (fun x => x) 0
  simpa using h

lemma sum_map_zip_getD (l m : List ℚ) (g : ℚ × ℚ → ℚ) (h : l.length = m.length) :
    ((l.zip m).map g).sum
      = ∑ i in Finset.range l.length, g (l.getD i 0, m.getD i 0) := by
  induction l generalizing m with
  | nil => simp
  | cons x l ih =>
    cases m with
    | nil => simp at h
    | cons y m =>
      rw [List.zip_cons_cons, List.map_cons, List.sum_cons,
        ih m (by simpa using h), List.length_cons, Finset.sum_range_succ']
      simp [add_comm]

lemma getD_mem_of_lt {α : Type} (l : List α) (d : α) (j : ℕ) (h : j < l.length) :
    l.getD j d ∈ l := by
  induction l generalizing j with
  | nil => simp at h
  | cons x l ih =>
    cases j with
    | zero => simp
    | succ j =>
      rw [List.getD_cons_succ]
      exact List.mem_cons_of_mem _ (ih j (by simpa using h))

end SumHelpers

section Scaling

lemma pvScale_add (c : ℚ) (x y : PyVal) :
    pvScale c (x.add y) = (pvScale c x).add (pvScale c y) := by
  cases x <;> cases y <;>
    simp [pvScale, PyVal.add, mul_add, List.map_map, Function.comp,
      List.map_zipWith, List.zipWith_map_left, List.zipWith_map_right]

lemma foldl_add_scale (c : ℚ) (ls : List PyVal) (acc : PyVal) :
    pvScale c (ls.foldl PyVal.add acc)
      = (ls.map (pvScale c)).foldl PyVal.add (pvScale c acc) := by
  induction ls generalizing acc with
  | nil => rfl
  | cons x ls ih =>
    rw [List.foldl_cons, List.map_cons, List.foldl_cons, ih, pvScale_add]

lemma matchedCols_scale (ret : PriceTable) (c : ℚ)
    (profile : List (String × ℚ)) :
    matchedCols ret (profile.map (fun p => (p.1, c * p.2)))
      = (matchedCols ret profile).map (fun wc => (c * wc.1, wc.2)) := by
  unfold matchedCols
  rw [List.filterMap_map, List.map_filterMap]
  apply List.filterMap_congr
  intro p _
  rw [Option.map_map]
  rfl

lemma userPortfolioReturn_scale (ret : PriceTable) (c : ℚ)
    (profile : List (String × ℚ)) :
    userPortfolioReturn ret (profile.map (fun p => (p.1, c * p.2)))
      = pvScale c (userPortfolioReturn ret profile) := by
  unfold userPortfolioReturn
  rw [matchedCols_scale, foldl_add_scale, List.map_map, List.map_map]
  have h1 : pvScale c (PyVal.scalar 0) = PyVal.scalar 0 := by simp [pvScale]
  rw [h1]
  congr 1
  apply List.map_congr_left
  intro wc _
  simp [Function.comp, pvScale, List.map_map, mul_comm, mul_left_comm]

lemma pvScale_comp (a b : ℚ) (x : PyVal) :
    pvScale a (pvScale b x) = pvScale (a * b) x := by
  cases x <;> simp [pvScale, List.map_map, Function.comp, mul_assoc]

end Scaling

section VarianceAlgebra

lemma sampleVar_eq_range (l : List ℚ) :
    sampleVar l
      = (∑ i in Finset.range l.length,
          (l.getD i 0 - l.sum / (l.length : ℚ)) ^ 2) / ((l.length : ℚ) - 1) := by
  rw [sampleVar, sum_map_getD l (fun x => (x - l.sum / (l.length : ℚ)) ^ 2) 0]

lemma sampleCov_eq_range (l m : List ℚ) (h : l.length = m.length) :
    sampleCov l m
      = (∑ i in Finset.range l.length,
          (l.getD i 0 - l.sum / (l.length : ℚ)) *
            (m.getD i 0 - m.sum / (m.length : ℚ))) / ((l.length : ℚ) - 1) := by
  rw [sampleCov, sum_map_zip_getD l m
    (fun p => (p.1 - l.sum / (l.length : ℚ)) * (p.2 - m.sum / (m.length : ℚ))) h]

lemma sampleVar_nonneg (l : List ℚ) (h : 2 ≤ l.length) : 0 ≤ sampleVar l := by
  rw [sampleVar_eq_range]
  apply div_nonneg
  · exact Finset.sum_nonneg (fun i _ => sq_nonneg _)
  · have : (2 : ℚ) ≤ (l.length : ℚ) := by exact_mod_cast h
    linarith

/-- The centering step: the portfolio series minus its mean is the weighted
sum of the centered asset columns. -/
lemma var_weighted_numerator (n k : ℕ) (W : ℕ → ℚ) (C : ℕ → ℕ → ℚ) :
    ∑ i in Finset.range n,
      ((∑ j in Finset.range k, C j i * W j) -
        (∑ r in Finset.range n, ∑ j in Finset.range k, C j r * W j) / (n : ℚ)) ^ 2
    = ∑ j in Finset.range k, ∑ l in Finset.range k, W j * W l *
        ∑ i in Finset.range n,
          (C j i - (∑ r in Finset.range n, C j r) / (n : ℚ)) *
          (C l i - (∑ r in Finset.range n, C l r) / (n : ℚ)) := by
  have hsbar : (∑ r in Finset.range n, ∑ j in Finset.range k, C j r * W j) / (n : ℚ)
      = ∑ j in Finset.range k, ((∑ r in Finset.range n, C j r) / (n : ℚ)) * W j := by
    rw [Finset.sum_comm, Finset.sum_div]
    refine Finset.sum_congr rfl (fun j _ => ?_)
    rw [← Finset.sum_mul, mul_div_right_comm]
  have hcenter : ∀ i, ((∑ j in Finset.range k, C j i * W j) -
      (∑ r in Finset.range n, ∑ j in Finset.range k, C j r * W j) / (n : ℚ))
      = ∑ j in Finset.range k,
          (C j i - (∑ r in Finset.range n, C j r) / (n : ℚ)) * W j := by
    intro i
    rw [hsbar, ← Finset.sum_sub_distrib]
    exact Finset.sum_congr rfl (fun j _ => by ring)
  calc ∑ i in Finset.range n,
        ((∑ j in Finset.range k, C j i * W j) -
          (∑ r in Finset.range n, ∑ j in Finset.range k, C j r * W j) / (n : ℚ)) ^ 2
      = ∑ i in Finset.range n, ∑ j in Finset.range k, ∑ l in Finset.range k,
          ((C j i - (∑ r in Finset.range n, C j r) / (n : ℚ)) * W j) *
          ((C l i - (∑ r in Finset.range n, C l r) / (n : ℚ)) * W l) := by
        refine Finset.sum_congr rfl (fun i _ => ?_)
        rw [hcenter i, sq, Finset.sum_mul_sum]
    _ = ∑ j in Finset.range k, ∑ l in Finset.range k, ∑ i in Finset.range n,
          ((C j i - (∑ r in Finset.range n, C j r) / (n : ℚ)) * W j) *
          ((C l i - (∑ r in Finset.range n, C l r) / (n : ℚ)) * W l) := by
        rw [Finset.sum_comm]
        exact Finset.sum_congr rfl (fun j _ => Finset.sum_comm)
    _ = ∑ j in Finset.range k, ∑ l in Finset.range k, W j * W l *
          ∑ i in Finset.range n,
            (C j i - (∑ r in Finset.range n, C j r) / (n : ℚ)) *
            (C l i - (∑ r in Finset.range n, C l r) / (n : ℚ)) := by
        refine Finset.sum_congr rfl (fun j _ => Finset.sum_congr rfl (fun l _ => ?_))
        rw [Finset.mul_sum]
        exact Finset.sum_congr rfl (fun i _ => by ring)

end VarianceAlgebra

section ConcreteTables

/-- A concrete monthly price table: one asset `A` with prices 100, 110, 121
(10 percent growth per period). -/
def exTable : PriceTable :=
  { dates := [0, 1, 2], cols := [("A", [100, 110, 121])] }

/-- A concrete return table with two assets and two observations. -/
def exReturns : PriceTable :=
  { dates := [1, 2], cols := [("A", [1/10, 1/5]), ("B", [3/10, 1/10])] }

/-- The profile that puts 100 percent on asset `A`. -/
def c4Profile : List (String × ℚ) := [("A", 100)]

end ConcreteTables

/-- Claim C1: for every date-sorted, fully numeric price table with at
least 2 rows (satisfying the PriceSeries invariant of positive prices,
under which the only NaN row of `pct_change` is the first, so `dropna`
drops exactly it), the return table drops the first date, has exactly
`rows - 1` entries, and each column obeys
`return[i] = price[i+1]/price[i] - 1`. -/
theorem claimC1 (t : PriceTable) (hrows : 2 ≤ t.dates.length) (hwf : t.wf)
    (hpos : ∀ c ∈ t.cols, ∀ x ∈ c.2, 0 < x) :
    (returnsTable t).dates = t.dates.tail ∧
    (returnsTable t).dates.length = t.dates.length - 1 ∧
    ∀ name col, lookupCol t name = some col →
      lookupCol (returnsTable t) name = some (pctChange col) ∧
      (pctChange col).length = t.dates.length - 1 ∧
      ∀ i : ℕ, i + 1 < col.length →
        (pctChange col).getD i 0 = col.getD (i + 1) 0 / col.getD i 0 - 1 := by
  refine ⟨rfl, by simp [returnsTable], ?_⟩
  intro name col hcol
  refine ⟨?_, ?_, fun i hi => pctChange_getD col i hi⟩
  · rw [lookupCol_returnsTable, hcol]
    rfl
  · rcases lookupCol_mem hcol with ⟨c, hc, rfl⟩
    rw [pctChange_length, hwf c hc]

/-- Witness for C1 at the concrete three-row table. -/
theorem claimC1_witness :
    (2 ≤ exTable.dates.length ∧ exTable.wf ∧
      (∀ c ∈ exTable.cols, ∀ x ∈ c.2, (0 : ℚ) < x)) ∧
    ((returnsTable exTable).dates = exTable.dates.tail ∧
     (returnsTable exTable).dates.length = exTable.dates.length - 1 ∧
     ∀ name col, lookupCol exTable name = some col →
       lookupCol (returnsTable exTable) name = some (pctChange col) ∧
       (pctChange col).length = exTable.dates.length - 1 ∧
       ∀ i : ℕ, i + 1 < col.length →
         (pctChange col).getD i 0 = col.getD (i + 1) 0 / col.getD i 0 - 1) :=
  ⟨⟨by decide, by decide, by decide⟩,
    claimC1 exTable (by decide) (by decide) (by decide)⟩

/-- Claim C2: the portfolio return series is the weighted sum over exactly
the assets present both in the profile index and in the return columns;
an asset named in the profile but absent from the return columns is
dropped from the sum, contributes nothing, and causes no error. -/
theorem claimC2 (ret : PriceTable) (ws : List (String × ℚ)) (n : ℕ)
    (hn : ∀ wc ∈ matchedCols ret ws, wc.2.length = n)
    (hne : matchedCols ret ws ≠ []) :
    (∃ σ : List ℚ, userPortfolioReturn ret ws = PyVal.series σ ∧ σ.length = n ∧
      ∀ i : ℕ, σ.getD i 0 = pointwiseMatchedSum (matchedCols ret ws) i) ∧
    ∀ a w, lookupCol ret a = none →
      userPortfolioReturn ret (ws ++ [(a, w)]) = userPortfolioReturn ret ws := by
  refine ⟨userPortfolioReturn_series ret ws n hn hne, ?_⟩
  intro a w hnone
  have hm : matchedCols ret (ws ++ [(a, w)]) = matchedCols ret ws := by
    unfold matchedCols
    rw [List.filterMap_append]
    simp [hnone]
  unfold userPortfolioReturn
  rw [hm]

/-- Witness for C2: asset `C` of the profile is absent from the returns. -/
theorem claimC2_witness :
    ((∀ wc ∈ matchedCols exReturns [("A", 1/2), ("C", 1/4)], wc.2.length = 2) ∧
      matchedCols exReturns [("A", 1/2), ("C", 1/4)] ≠ []) ∧
    ((∃ σ : List ℚ,
        userPortfolioReturn exReturns [("A", 1/2), ("C", 1/4)] = PyVal.series σ ∧
        σ.length = 2 ∧
        ∀ i : ℕ, σ.getD i 0
          = pointwiseMatchedSum (matchedCols exReturns [("A", 1/2), ("C", 1/4)]) i) ∧
     ∀ a w, lookupCol exReturns a = none →
       userPortfolioReturn exReturns ([("A", 1/2), ("C", 1/4)] ++ [(a, w)])
         = userPortfolioReturn exReturns [("A", 1/2), ("C", 1/4)]) := by
  have hmc : matchedCols exReturns [("A", 1/2), ("C", 1/4)]
      = [(1/2, [1/10, 1/5])] := by
    norm_num [matchedCols, lookupCol, exReturns, List.find?, List.filterMap,
      (by decide : (("A" : String) == "C") = false),
      (by decide : (("B" : String) == "C") = false)]
  refine ⟨⟨?_, ?_⟩, claimC2 exReturns [("A", 1/2), ("C", 1/4)] 2 ?_ ?_⟩ <;>
    rw [hmc] <;> simp

/-- Claim C3: the engine turns percentages into fractions by dividing each
weight by 100 (never by the weights' sum); consequently, with weights
summing to `s ≠ 0`, the portfolio return series is exactly `s/100` times
the portfolio return of the sum-renormalized profile — scaled, not
renormalized and not rejected. -/
theorem claimC3 (ret : PriceTable) (profile : List (String × ℚ))
    (hs : (profile.map (fun p => p.2)).sum ≠ 0) :
    (∀ p ∈ profile, (p.1, p.2 / 100) ∈ weightsOf profile) ∧
    userPortfolioReturn ret (weightsOf profile)
      = pvScale ((profile.map (fun p => p.2)).sum / 100)
          (userPortfolioReturn ret
            (profile.map (fun p => (p.1, p.2 / (profile.map (fun q => q.2)).sum)))) := by
  constructor
  · intro p hp
    exact List.mem_map_of_mem _ hp
  · have h100 : weightsOf profile
        = profile.map (fun p => (p.1, (1 / 100 : ℚ) * p.2)) := by
      apply List.map_congr_left
      intro p _
      have h : p.2 / 100 = (1 / 100 : ℚ) * p.2 := by ring
      rw [h]
    have hnorm : profile.map (fun p => (p.1, p.2 / (profile.map (fun q => q.2)).sum))
        = profile.map (fun p => (p.1, (1 / (profile.map (fun q => q.2)).sum) * p.2)) := by
      apply List.map_congr_left
      intro p _
      have h : p.2 / (profile.map (fun q => q.2)).sum
          = (1 / (profile.map (fun q => q.2)).sum) * p.2 := by ring
      rw [h]
    rw [h100, hnorm, userPortfolioReturn_scale, userPortfolioReturn_scale, pvScale_comp]
    congr 1
    field_simp

/-- Witness for C3 at a profile whose weights sum to 50. -/
theorem claimC3_witness :
    ((([("A", 30), ("C", 20)] : List (String × ℚ)).map (fun p => p.2)).sum ≠ 0) ∧
    ((∀ p ∈ ([("A", 30), ("C", 20)] : List (String × ℚ)),
        (p.1, p.2 / 100) ∈ weightsOf [("A", 30), ("C", 20)]) ∧
     userPortfolioReturn exReturns (weightsOf [("A", 30), ("C", 20)])
       = pvScale ((([("A", 30), ("C", 20)] : List (String × ℚ)).map (fun p => p.2)).sum / 100)
           (userPortfolioReturn exReturns
             (([("A", 30), ("C", 20)] : List (String × ℚ)).map
               (fun p => (p.1, p.2 / (([("A", 30), ("C", 20)] : List (String × ℚ)).map (fun q => q.2)).sum))))) :=
  ⟨by norm_num, claimC3 exReturns [("A", 30), ("C", 20)] (by norm_num)⟩

/-- Claim C4 counterexample: with monthly prices 100, 110, 121 for the
single asset `A` at weight 100 percent, the filtered window has
numPeriods = 2 return rows and the code reports the figure 21/100 (line
147 computes the plain compounded total return); the annualized figure
claimed by the spec, `(1 + totalReturn)^(12/2) - 1`, differs from it, so
the reported per-profile return is not the annualized one. -/
theorem claimC4_counterexample :
    total_ret (userPortfolioReturn (returnsTable exTable) (weightsOf c4Profile))
        = some (21 / 100) ∧
    (1 + ((21 / 100 : ℚ) : ℝ)) ^ ((12 : ℝ) / (2 : ℝ)) - 1 ≠ ((21 / 100 : ℚ) : ℝ) := by
  constructor
  · norm_num [total_ret, onePlus, pyProd, userPortfolioReturn, matchedCols,
      lookupCol, exTable, c4Profile, weightsOf, returnsTable, pctChange,
      PyVal.add, List.find?, List.filterMap]
  · have h6 : ((12 : ℝ) / (2 : ℝ)) = ((6 : ℕ) : ℝ) := by norm_num
    rw [h6, Real.rpow_natCast]
    push_cast
    norm_num

/-- Claim C4 amended: the reported per-profile figure is the compounded
full-period total return `(1 + r).prod() - 1`, with no annualization
applied; when the window has 0 return rows (and at least one matched
asset) the empty product makes the reported value 0, not a division
error. -/
theorem claimC4_amended (ret : PriceTable) (ws : List (String × ℚ))
    (σ : List ℚ) (h : userPortfolioReturn ret ws = PyVal.series σ) :
    total_ret (userPortfolioReturn ret ws)
        = some ((∏ i in Finset.range σ.length, (1 + σ.getD i 0)) - 1) ∧
    (σ.length = 0 → total_ret (userPortfolioReturn ret ws) = some 0) := by
  have hmain : total_ret (userPortfolioReturn ret ws)
      = some ((∏ i in Finset.range σ.length, (1 + σ.getD i 0)) - 1) := by
    rw [h]
    show some ((σ.map (fun r => 1 + r)).prod - 1) = _
    rw [prod_map_getD σ (fun r => 1 + r)]
  refine ⟨hmain, fun h0 => ?_⟩
  rw [hmain, h0]
  norm_num

/-- Witness for the amended C4 at the concrete table (two return rows of
10 percent each; the reported value is `1.1 * 1.1 - 1`). -/
theorem claimC4_amended_witness :
    userPortfolioReturn (returnsTable exTable) (weightsOf c4Profile)
        = PyVal.series [1/10, 1/10] ∧
    (total_ret (userPortfolioReturn (returnsTable exTable) (weightsOf c4Profile))
        = some ((∏ i in Finset.range ([1/10, 1/10] : List ℚ).length,
            (1 + ([1/10, 1/10] : List ℚ).getD i 0)) - 1) ∧
     (([1/10, 1/10] : List ℚ).length = 0 →
       total_ret (userPortfolioReturn (returnsTable exTable) (weightsOf c4Profile))
         = some 0)) := by
  have h : userPortfolioReturn (returnsTable exTable) (weightsOf c4Profile)
      = PyVal.series [1/10, 1/10] := by
    norm_num [userPortfolioReturn, matchedCols, lookupCol, exTable, c4Profile,
      weightsOf, returnsTable, pctChange, PyVal.add, List.find?, List.filterMap]
  exact ⟨h, claimC4_amended _ _ [1/10, 1/10] h⟩

/-- Weight of entry `j` of a matched-column list. -/
def colW (m : List (ℚ × List ℚ)) (j : ℕ) : ℚ := (m.getD j (0, [])).1

/-- Value of entry `j` of a matched-column list at date `i`. -/
def colC (m : List (ℚ × List ℚ)) (j i : ℕ) : ℚ := (m.getD j (0, [])).2.getD i 0

/-- The key identity behind C5: the sample variance of the pointwise
weighted sum of the matched columns, times 12, equals the spec's
`w^T (Cov * 12) w` over those columns. -/
lemma sampleVar_weighted (m : List (ℚ × List ℚ)) (n : ℕ) (σ : List ℚ)
    (hcols : ∀ wc ∈ m, wc.2.length = n) (hlen : σ.length = n)
    (hget : ∀ i : ℕ, σ.getD i 0 = pointwiseMatchedSum m i) :
    sampleVar σ * 12
      = (m.map (fun a =>
          (m.map (fun b => a.1 * b.1 * (12 * sampleCov a.2 b.2))).sum)).sum := by
  have hW : ∀ i : ℕ, σ.getD i 0
      = ∑ j in Finset.range m.length, colC m j i * colW m j := by
    intro i
    rw [hget i, pointwiseMatchedSum,
      sum_map_getD m (fun wc => wc.2.getD i 0 * wc.1) (0, [])]
    rfl
  have hcollen : ∀ j < m.length, (m.getD j (0, ([] : List ℚ))).2.length = n :=
    fun j hj => hcols _ (getD_mem_of_lt m (0, []) j hj)
  have hσsum : σ.sum
      = ∑ r in Finset.range n, ∑ j in Finset.range m.length, colC m j r * colW m j := by
    rw [list_sum_eq_range, hlen]
    exact Finset.sum_congr rfl (fun r _ => hW r)
  have hvar : sampleVar σ
      = (∑ i in Finset.range n,
          ((∑ j in Finset.range m.length, colC m j i * colW m j) -
            (∑ r in Finset.range n, ∑ j in Finset.range m.length, colC m j r * colW m j)
              / (n : ℚ)) ^ 2) / ((n : ℚ) - 1) := by
    rw [sampleVar_eq_range, hlen, hσsum]
    congr 1
    exact Finset.sum_congr rfl (fun i _ => by rw [hW i])
  have hcov : ∀ j < m.length, ∀ l < m.length,
      sampleCov (m.getD j (0, [])).2 (m.getD l (0, [])).2
        = (∑ i in Finset.range n,
            (colC m j i - (∑ r in Finset.range n, colC m j r) / (n : ℚ)) *
            (colC m l i - (∑ r in Finset.range n, colC m l r) / (n : ℚ)))
          / ((n : ℚ) - 1) := by
    intro j hj l hl
    have hlj := hcollen j hj
    have hll := hcollen l hl
    have hsj : (m.getD j (0, ([] : List ℚ))).2.sum
        = ∑ r in Finset.range n, colC m j r := by
      rw [list_sum_eq_range, hlj]
      rfl
    have hsl : (m.getD l (0, ([] : List ℚ))).2.sum
        = ∑ r in Finset.range n, colC m l r := by
      rw [list_sum_eq_range, hll]
      rfl
    rw [sampleCov_eq_range _ _ (by rw [hlj, hll]), hlj, hll, hsj, hsl]
    rfl
  have hspec : (m.map (fun a =>
        (m.map (fun b => a.1 * b.1 * (12 * sampleCov a.2 b.2))).sum)).sum
      = ∑ j in Finset.range m.length, ∑ l in Finset.range m.length,
          colW m j * colW m l *
            (12 * sampleCov (m.getD j (0, [])).2 (m.getD l (0, [])).2) := by
    rw [sum_map_getD m
      (fun a => (m.map (fun b => a.1 * b.1 * (12 * sampleCov a.2 b.2))).sum) (0, [])]
    refine Finset.sum_congr rfl (fun j _ => ?_)
    dsimp only
    rw [sum_map_getD m
      (fun b => (m.getD j (0, [])).1 * b.1 * (12 * sampleCov (m.getD j (0, [])).2 b.2))
      (0, [])]
    rfl
  rw [hvar, hspec, var_weighted_numerator n m.length (colW m) (colC m)]
  have hrhs : ∑ j in Finset.range m.length, ∑ l in Finset.range m.length,
      colW m j * colW m l *
        (12 * sampleCov (m.getD j (0, [])).2 (m.getD l (0, [])).2)
      = ∑ j in Finset.range m.length, ∑ l in Finset.range m.length,
          colW m j * colW m l * (12 * ((∑ i in Finset.range n,
            (colC m j i - (∑ r in Finset.range n, colC m j r) / (n : ℚ)) *
            (colC m l i - (∑ r in Finset.range n, colC m l r) / (n : ℚ)))
              / ((n : ℚ) - 1))) :=
    Finset.sum_congr rfl (fun j hj => Finset.sum_congr rfl (fun l hl => by
      rw [hcov j (Finset.mem_range.mp hj) l (Finset.mem_range.mp hl)]))
  rw [hrhs, Finset.sum_div, Finset.sum_mul]
  refine Finset.sum_congr rfl (fun j _ => ?_)
  rw [Finset.sum_div, Finset.sum_mul]
  refine Finset.sum_congr rfl (fun l _ => ?_)
  ring

/-- Claim C5: the spec's annualized volatility
`sqrt(w^T (Cov * 12) w)` over the profile-restricted covariance submatrix
equals the program's computation of line 150, the sample standard
deviation of the aggregated portfolio return series times `sqrt(12)`:
their squares agree exactly in ℚ, and hence the volatilities agree in ℝ. -/
theorem claimC5 (ret : PriceTable) (ws : List (String × ℚ)) (n : ℕ)
    (hn : ∀ wc ∈ matchedCols ret ws, wc.2.length = n) (h2 : 2 ≤ n)
    (hne : matchedCols ret ws ≠ []) :
    ∃ σ : List ℚ, userPortfolioReturn ret ws = PyVal.series σ ∧
      vol_squared (userPortfolioReturn ret ws)
          = some (specPortfolioVarianceAnn ret ws) ∧
      Real.sqrt ((sampleVar σ : ℚ) : ℝ) * Real.sqrt 12
          = Real.sqrt ((specPortfolioVarianceAnn ret ws : ℚ) : ℝ) := by
  obtain ⟨σ, hσ, hlen, hget⟩ := userPortfolioReturn_series ret ws n hn hne
  have hkey : sampleVar σ * 12 = specPortfolioVarianceAnn ret ws :=
    sampleVar_weighted (matchedCols ret ws) n σ hn hlen hget
  refine ⟨σ, hσ, ?_, ?_⟩
  · rw [hσ]
    have h1 : pyVar (PyVal.series σ) = some (sampleVar σ) := by
      show (if σ.length ≤ 1 then none else some (sampleVar σ)) = some (sampleVar σ)
      rw [if_neg (by omega : ¬ σ.length ≤ 1)]
    unfold vol_squared
    rw [h1, Option.map_some', hkey]
  · have hnn : (0 : ℝ) ≤ ((sampleVar σ : ℚ) : ℝ) := by
      exact_mod_cast sampleVar_nonneg σ (by omega)
    rw [← Real.sqrt_mul hnn, ← hkey]
    push_cast
    ring_nf

/-- Witness for C5 at a two-asset, two-observation return table. -/
theorem claimC5_witness :
    ((∀ wc ∈ matchedCols exReturns [("A", 1/2), ("B", 1/2)], wc.2.length = 2) ∧
      2 ≤ 2 ∧ matchedCols exReturns [("A", 1/2), ("B", 1/2)] ≠ []) ∧
    (∃ σ : List ℚ,
      userPortfolioReturn exReturns [("A", 1/2), ("B", 1/2)] = PyVal.series σ ∧
      vol_squared (userPortfolioReturn exReturns [("A", 1/2), ("B", 1/2)])
          = some (specPortfolioVarianceAnn exReturns [("A", 1/2), ("B", 1/2)]) ∧
      Real.sqrt ((sampleVar σ : ℚ) : ℝ) * Real.sqrt 12
          = Real.sqrt ((specPortfolioVarianceAnn exReturns [("A", 1/2), ("B", 1/2)] : ℚ) : ℝ)) := by
  have hmc : matchedCols exReturns [("A", 1/2), ("B", 1/2)]
      = [(1/2, [1/10, 1/5]), (1/2, [3/10, 1/10])] := by
    norm_num [matchedCols, lookupCol, exReturns, List.find?, List.filterMap,
      (by decide : (("A" : String) == "B") = false)]
  refine ⟨⟨?_, by norm_num, ?_⟩, claimC5 exReturns [("A", 1/2), ("B", 1/2)] 2 ?_ (by norm_num) ?_⟩ <;>
    rw [hmc] <;> simp

/-- The scenario D column set of the spec, as a return table (the values
are irrelevant to resolution). -/
def scenarioD : PriceTable :=
  { dates := [0]
    cols := [("MSCI World Index", [0]), ("Bloomberg US Agg", [0]), ("CPI Index", [0])] }

lemma lookupCol_isSome (t : PriceTable) (name : String) :
    (lookupCol t name).isSome ↔ name ∈ t.cols.map Prod.fst := by
  unfold lookupCol
  rw [Option.isSome_map', List.find?_isSome]
  constructor
  · rintro ⟨c, hc, hp⟩
    exact List.mem_map.mpr ⟨c, hc, by simpa using hp⟩
  · intro h
    rcases List.mem_map.mp h with ⟨c, hc, hfst⟩
    exact ⟨c, hc, by simp [hfst]⟩

/-- Claim C6 counterexample: the code has no substring-based resolver.
Its benchmark cards test for the exact column names
`Bloomberg Global Aggregate` and `CPI`, and there is no global-equity
card at all, so the scenario D columns
`MSCI World Index`, `Bloomberg US Agg`, `CPI Index` resolve no role:
both KPIs come out absent, refuting the claim that all three roles
resolve. -/
theorem claimC6_counterexample :
    globalAggKPI scenarioD = none ∧ cpiKPI scenarioD = none := by
  constructor <;> decide

/-- Claim C6 amended: resolution is by exact column-name equality and only
for the two roles the code implements: the Global Aggregate card appears
iff some return column is named exactly `Bloomberg Global Aggregate`, and
the inflation card iff some return column is named exactly `CPI`; there
is no case-insensitive substring matching and no global-equity role. -/
theorem claimC6_amended (ret : PriceTable) :
    ((globalAggKPI ret).isSome ↔ "Bloomberg Global Aggregate" ∈ ret.cols.map Prod.fst) ∧
    ((cpiKPI ret).isSome ↔ "CPI" ∈ ret.cols.map Prod.fst) := by
  constructor
  · rw [globalAggKPI, Option.isSome_map']
    exact lookupCol_isSome ret _
  · rw [cpiKPI, Option.isSome_map']
    exact lookupCol_isSome ret _

/-- A two-date price table producing a single return observation. -/
def twoRowTable : PriceTable :=
  { dates := [0, 1], cols := [("A", [100, 105])] }

/-- Claim C7 counterexample: a window producing a single return
observation makes `Series.std()` (ddof = 1) NaN, and line 150 multiplies
that into the displayed volatility; the NaN therefore reaches the display
layer, refuting the claim that NaN is never propagated. -/
theorem claimC7_counterexample :
    vol_squared (userPortfolioReturn (returnsTable twoRowTable) (weightsOf c4Profile))
      = none := by
  norm_num [vol_squared, pyVar, userPortfolioReturn, matchedCols, lookupCol,
    twoRowTable, c4Profile, weightsOf, returnsTable, pctChange, PyVal.add,
    List.find?, List.filterMap]

/-- Claim C7 amended: with at least two observations a zero-variance
(constant) portfolio return series does yield reported volatility 0, but
with at most one observation the sample standard deviation is NaN
(modelled `none`) and `NaN * sqrt(12)` reaches the display; there is no
explicit degenerate-result representation. -/
theorem claimC7_amended (c : ℚ) (n : ℕ) (hn : 2 ≤ n) (σ : List ℚ)
    (hσ : σ.length ≤ 1) :
    vol_squared (PyVal.series (List.replicate n c)) = some 0 ∧
    Real.sqrt ((sampleVar (List.replicate n c) : ℚ) : ℝ) * Real.sqrt 12 = 0 ∧
    pyVar (PyVal.series σ) = none := by
  have hne : (n : ℚ) ≠ 0 := by
    have h0 : 0 < n := lt_of_lt_of_le (by norm_num) hn
    exact_mod_cast h0.ne'
  have hvar : sampleVar (List.replicate n c) = 0 := by
    unfold sampleVar
    have h1 : (n : ℚ) * c / (n : ℚ) = c := mul_div_cancel_left₀ c hne
    simp [List.map_replicate, List.sum_replicate, nsmul_eq_mul, h1]
  have hlen2 : ¬ (List.replicate n c).length ≤ 1 := by
    rw [List.length_replicate]
    omega
  have h2 : pyVar (PyVal.series (List.replicate n c)) = some (sampleVar (List.replicate n c)) := by
    show (if (List.replicate n c).length ≤ 1 then none
      else some (sampleVar (List.replicate n c))) = _
    rw [if_neg hlen2]
  refine ⟨?_, ?_, ?_⟩
  · unfold vol_squared
    rw [h2, hvar, Option.map_some']
    norm_num
  · rw [hvar]
    simp
  · show (if σ.length ≤ 1 then none else some (sampleVar σ)) = none
    rw [if_pos hσ]

/-- Witness for the amended C7: a constant two-observation series has
volatility 0, and a one-observation series has NaN standard deviation. -/
theorem claimC7_amended_witness :
    ((2 : ℕ) ≤ 2 ∧ ([(3 : ℚ)] : List ℚ).length ≤ 1) ∧
    (vol_squared (PyVal.series (List.replicate 2 (5 : ℚ))) = some 0 ∧
     Real.sqrt ((sampleVar (List.replicate 2 (5 : ℚ)) : ℚ) : ℝ) * Real.sqrt 12 = 0 ∧
     pyVar (PyVal.series [(3 : ℚ)]) = none) :=
  ⟨⟨by norm_num, by norm_num⟩, claimC7_amended 5 2 (by norm_num) [3] (by norm_num)⟩

/-- Claim C8 counterexample: for a profile referencing only assets absent
from the return columns, the `sum(...)` of line 142 degenerates to the
plain int 0, and line 147 then calls `.prod()` on it, which raises an
unhandled AttributeError (modelled `none`): the program crashes instead
of reporting a structured ConfigurationError. -/
theorem claimC8_counterexample :
    userPortfolioReturn exReturns [("X", 1)] = PyVal.scalar 0 ∧
    total_ret (userPortfolioReturn exReturns [("X", 1)]) = none := by
  have h1 : userPortfolioReturn exReturns [("X", 1)] = PyVal.scalar 0 := by
    norm_num [userPortfolioReturn, matchedCols, lookupCol, exReturns,
      List.find?, List.filterMap,
      (by decide : (("A" : String) == "X") = false),
      (by decide : (("B" : String) == "X") = false)]
  exact ⟨h1, by rw [h1]; rfl⟩

/-- Claim C8 amended: whenever no asset of the profile matches a return
column, the weighted sum is the plain scalar 0 and the total-return
computation of line 147 fails with an unhandled AttributeError (`none`);
no structured ConfigurationError is produced. -/
theorem claimC8_amended (ret : PriceTable) (ws : List (String × ℚ))
    (h : ∀ p ∈ ws, lookupCol ret p.1 = none) :
    userPortfolioReturn ret ws = PyVal.scalar 0 ∧
    total_ret (userPortfolioReturn ret ws) = none := by
  have hm : matchedCols ret ws = [] := by
    unfold matchedCols
    rw [List.filterMap_eq_nil_iff]
    intro p hp
    rw [h p hp]
    rfl
  have h1 : userPortfolioReturn ret ws = PyVal.scalar 0 := by
    unfold userPortfolioReturn
    rw [hm]
    rfl
  exact ⟨h1, by rw [h1]; rfl⟩

/-- Witness for the amended C8: the profile names only the unknown asset
`X`. -/
theorem claimC8_amended_witness :
    (∀ p ∈ ([("X", (1 : ℚ))] : List (String × ℚ)), lookupCol exReturns p.1 = none) ∧
    (userPortfolioReturn exReturns [("X", 1)] = PyVal.scalar 0 ∧
     total_ret (userPortfolioReturn exReturns [("X", 1)]) = none) := by
  have h : ∀ p ∈ ([("X", (1 : ℚ))] : List (String × ℚ)),
      lookupCol exReturns p.1 = none := by decide
  exact ⟨h, claimC8_amended exReturns [("X", 1)] h⟩

section MinMax

lemma foldl_min_le_init (l : List ℤ) : ∀ a : ℤ, l.foldl min a ≤ a := by
  induction l with
  | nil => intro a; exact le_refl a
  | cons x l ih => intro a; exact le_trans (ih (min a x)) (min_le_left a x)

lemma foldl_min_le_mem (l : List ℤ) : ∀ a d : ℤ, d ∈ l → l.foldl min a ≤ d := by
  induction l with
  | nil => intro a d h; simp at h
  | cons x l ih =>
    intro a d h
    rcases List.mem_cons.mp h with rfl | h
    · exact le_trans (foldl_min_le_init l (min a d)) (min_le_right a d)
    · exact ih (min a x) d h

lemma min?_le_mem (l : List ℤ) (mn : ℤ) (h : l.min? = some mn) :
    ∀ d ∈ l, mn ≤ d := by
  cases l with
  | nil => simp [List.min?] at h
  | cons a l =>
    rw [List.min?_cons'] at h
    have hmn : mn = l.foldl min a := (Option.some.inj h).symm
    intro d hd
    rcases List.mem_cons.mp hd with rfl | hd
    · rw [hmn]; exact foldl_min_le_init l d
    · rw [hmn]; exact foldl_min_le_mem l a d hd

lemma foldl_max_ge_init (l : List ℤ) : ∀ a : ℤ, a ≤ l.foldl max a := by
  induction l with
  | nil => intro a; exact le_refl a
  | cons x l ih => intro a; exact le_trans (le_max_left a x) (ih (max a x))

lemma foldl_max_ge_mem (l : List ℤ) : ∀ a d : ℤ, d ∈ l → d ≤ l.foldl max a := by
  induction l with
  | nil => intro a d h; simp at h
  | cons x l ih =>
    intro a d h
    rcases List.mem_cons.mp h with rfl | h
    · exact le_trans (le_max_right a d) (foldl_max_ge_init l (max a d))
    · exact ih (max a x) d h

lemma max?_ge_mem (l : List ℤ) (mx : ℤ) (h : l.max? = some mx) :
    ∀ d ∈ l, d ≤ mx := by
  cases l with
  | nil => simp [List.max?] at h
  | cons a l =>
    rw [List.max?_cons'] at h
    have hmx : mx = l.foldl max a := (Option.some.inj h).symm
    intro d hd
    rcases List.mem_cons.mp hd with rfl | hd
    · rw [hmx]; exact foldl_max_ge_init l d
    · rw [hmx]; exact foldl_max_ge_mem l a d hd

end MinMax

lemma applyMask_all (dates : List ℤ) (p : ℤ → Bool) (col : List ℚ)
    (hlen : col.length = dates.length) (hall : ∀ d ∈ dates, p d = true) :
    applyMask dates p col = col := by
  induction dates generalizing col with
  | nil =>
    cases col with
    | nil => rfl
    | cons c cs => simp at hlen
  | cons d ds ih =>
    cases col with
    | nil => simp at hlen
    | cons c cs =>
      have hd : p d = true := hall d (by simp)
      show (((d, c) :: ds.zip cs).filter (fun dc => p dc.1)).map (fun dc => dc.2)
        = c :: cs
      rw [List.filter_cons_of_pos (by simpa using hd), List.map_cons]
      show c :: applyMask ds p cs = c :: cs
      rw [ih cs (by simpa using hlen) (fun x hx => hall x (List.mem_cons_of_mem _ hx))]

/-- Claim C9: filtering a price table to the inclusive window bounded by
its own minimum and maximum dates is the identity, so every downstream
metric and series is unchanged (they are pure functions of the filtered
table; the return table is spelled out as a representative). -/
theorem claimC9 (t : PriceTable) (hwf : t.wf) (mn mx : ℤ)
    (hmn : t.dates.min? = some mn) (hmx : t.dates.max? = some mx) :
    filterTable t mn mx = t ∧
    returnsTable (filterTable t mn mx) = returnsTable t := by
  have hall : ∀ d ∈ t.dates, (decide (mn ≤ d) && decide (d ≤ mx)) = true := by
    intro d hd
    have h1 := min?_le_mem t.dates mn hmn d hd
    have h2 := max?_ge_mem t.dates mx hmx d hd
    simp [h1, h2]
  have hmain : filterTable t mn mx = t := by
    have hcols : ∀ c ∈ t.cols,
        (c.1, applyMask t.dates (fun d => decide (mn ≤ d) && decide (d ≤ mx)) c.2)
          = c := by
      intro c hc
      rw [applyMask_all t.dates _ c.2 (hwf c hc) hall]
    cases t with
    | mk dates cols =>
      unfold filterTable
      congr 1
      · exact List.filter_eq_self.mpr hall
      · rw [List.map_congr_left hcols]
        exact List.map_id' _
  exact ⟨hmain, by rw [hmain]⟩

/-- Witness for C9 at the concrete three-row table. -/
theorem claimC9_witness :
    (exTable.wf ∧ exTable.dates.min? = some 0 ∧ exTable.dates.max? = some 2) ∧
    (filterTable exTable 0 2 = exTable ∧
     returnsTable (filterTable exTable 0 2) = returnsTable exTable) :=
  ⟨⟨by decide, by decide, by decide⟩,
    claimC9 exTable (by decide) 0 2 (by decide) (by decide)⟩

lemma nodup_keys_eq {ws : List (String × ℚ)} (h : (ws.map Prod.fst).Nodup)
    {a : String} {w w2 : ℚ} (h1 : (a, w) ∈ ws) (h2 : (a, w2) ∈ ws) : w = w2 := by
  induction ws with
  | nil => simp at h1
  | cons b ws ih =>
    rw [List.map_cons, List.nodup_cons] at h
    rcases List.mem_cons.mp h1 with hb1 | h1 <;>
      rcases List.mem_cons.mp h2 with hb2 | h2
    · rw [← hb2] at hb1
      exact congrArg Prod.snd hb1
    · exfalso
      apply h.1
      have : b.1 = a := by rw [← hb1]
      rw [this]
      exact List.mem_map.mpr ⟨(a, w2), h2, rfl⟩
    · exfalso
      apply h.1
      have : b.1 = a := by rw [← hb2]
      rw [this]
      exact List.mem_map.mpr ⟨(a, w), h1, rfl⟩
    · exact ih h.2 h1 h2

/-- Claim C10: in the composition output of lines 186-190 an asset
contributes a series iff its fractional weight is strictly positive and
its column exists in the filtered table, the contributed series at each
date being `weight * (price[t] / price[t0]) * 100`; a zero-weight (or
negative-weight) asset is omitted, and an asset with no column is
omitted — unlike the portfolio return sum of line 142, which keeps
zero-weight assets among its matched columns. -/
theorem claimC10 (t : PriceTable) (ws : List (String × ℚ))
    (hkeys : (ws.map Prod.fst).Nodup) :
    (∀ e ∈ comp_df t ws, ∃ w col, (e.1, w) ∈ ws ∧ 0 < w ∧
        lookupCol t e.1 = some col ∧
        e.2 = col.map (fun p => w * (p / col.headD 0) * 100)) ∧
    (∀ a w col, (a, w) ∈ ws → 0 < w → lookupCol t a = some col →
        (a, col.map (fun p => w * (p / col.headD 0) * 100)) ∈ comp_df t ws) ∧
    (∀ a w, (a, w) ∈ ws → w ≤ 0 → ∀ σ, (a, σ) ∉ comp_df t ws) ∧
    (∀ a w, (a, w) ∈ ws → lookupCol t a = none → ∀ σ, (a, σ) ∉ comp_df t ws) ∧
    (∀ a col, (a, 0) ∈ ws → lookupCol t a = some col →
        ((0 : ℚ), col) ∈ matchedCols t ws) := by
  have hforward : ∀ e ∈ comp_df t ws, ∃ w col, (e.1, w) ∈ ws ∧ 0 < w ∧
      lookupCol t e.1 = some col ∧
      e.2 = col.map (fun p => w * (p / col.headD 0) * 100) := by
    intro e he
    rcases List.mem_filterMap.mp he with ⟨aw, haw, hf⟩
    by_cases hw : 0 < aw.2
    · rw [if_pos hw] at hf
      rcases Option.map_eq_some'.mp hf with ⟨col, hcol, hec⟩
      refine ⟨aw.2, col, ?_, hw, ?_, ?_⟩
      · have h1 : e.1 = aw.1 := by rw [← hec]
        rw [h1]
        exact haw
      · have h1 : e.1 = aw.1 := by rw [← hec]
        rw [h1]
        exact hcol
      · rw [← hec]
    · rw [if_neg hw] at hf
      exact absurd hf (by simp)
  refine ⟨hforward, ?_, ?_, ?_, ?_⟩
  · intro a w col haw hw hcol
    exact List.mem_filterMap.mpr ⟨(a, w), haw, by rw [if_pos hw, hcol]; rfl⟩
  · intro a w haw hw σ hmem
    rcases hforward (a, σ) hmem with ⟨w2, col, haw2, hw2, _, _⟩
    exact absurd (nodup_keys_eq hkeys haw haw2) (by intro h; rw [h] at hw; exact absurd hw2 (not_lt.mpr hw))
  · intro a w haw hnone σ hmem
    rcases hforward (a, σ) hmem with ⟨w2, col, _, _, hcol, _⟩
    rw [hnone] at hcol
    exact Option.noConfusion hcol
  · intro a col haw hcol
    exact List.mem_filterMap.mpr ⟨(a, 0), haw, by rw [hcol]; rfl⟩

/-- Witness for C10: asset `A` has positive weight, asset `B` has weight
0 and is omitted from the composition output. -/
theorem claimC10_witness :
    ((([("A", 1/2), ("B", 0)] : List (String × ℚ)).map Prod.fst).Nodup) ∧
    ((∀ e ∈ comp_df exTable [("A", 1/2), ("B", 0)], ∃ w col,
        (e.1, w) ∈ ([("A", 1/2), ("B", 0)] : List (String × ℚ)) ∧ 0 < w ∧
        lookupCol exTable e.1 = some col ∧
        e.2 = col.map (fun p => w * (p / col.headD 0) * 100)) ∧
     (∀ a w col, (a, w) ∈ ([("A", 1/2), ("B", 0)] : List (String × ℚ)) → 0 < w →
        lookupCol exTable a = some col →
        (a, col.map (fun p => w * (p / col.headD 0) * 100))
          ∈ comp_df exTable [("A", 1/2), ("B", 0)]) ∧
     (∀ a w, (a, w) ∈ ([("A", 1/2), ("B", 0)] : List (String × ℚ)) → w ≤ 0 →
        ∀ σ, (a, σ) ∉ comp_df exTable [("A", 1/2), ("B", 0)]) ∧
     (∀ a w, (a, w) ∈ ([("A", 1/2), ("B", 0)] : List (String × ℚ)) →
        lookupCol exTable a = none →
        ∀ σ, (a, σ) ∉ comp_df exTable [("A", 1/2), ("B", 0)]) ∧
     (∀ a col, (a, (0 : ℚ)) ∈ ([("A", 1/2), ("B", 0)] : List (String × ℚ)) →
        lookupCol exTable a = some col →
        ((0 : ℚ), col) ∈ matchedCols exTable [("A", 1/2), ("B", 0)])) :=
  ⟨by decide, claimC10 exTable [("A", 1/2), ("B", 0)] (by decide)⟩

end Offshore
